import Mathlib

/-!
Verification of the SecureCall repository: a shallow embedding of the
signaling server's room registry (src/unnamed/part_000) and of the client's
E2EECrypto frame cipher engine (src/client/src/App.jsx), with theorems about
the spec's claims.  External library primitives (the Web Crypto AEAD and
PBKDF2 implementations reached through crypto.subtle) are parameters of the
embedding; everything written by the repository itself is translated
directly from the source.
-/

namespace SecureCall

/-- A frame of media data, as a sequence of byte values. -/
abbrev Frame := List Nat

/-- An opaque symmetric key value (CryptoKey objects are modelled as byte lists). -/
abbrev Key := List Nat

/-- JavaScript ToInt32: reinterpret a nonnegative number modulo 2^32 as a
signed 32-bit value. -/
def toInt32 (n : Nat) : Int :=
  if n % 4294967296 < 2147483648 then ((n % 4294967296 : Nat) : Int)
  else ((n % 4294967296 : Nat) : Int) - 4294967296

/-- JavaScript ToUint32, as DataView.setUint32 applies it to its value argument. -/
def toUint32 (x : Int) : Nat := (x % 4294967296).toNat

/-- JavaScript signed right shift a >> b on nonnegative number operands: the
left operand is converted with ToInt32, the shift count is taken modulo 32,
and the shift is arithmetic (floor division by a power of two). -/
def jsShr (a b : Nat) : Int := Int.fdiv (toInt32 a) (2 ^ (b % 32))

/-- JavaScript bitwise and a and b on nonnegative number operands: both
operands are reduced to their 32-bit representations, conjoined bitwise, and
the result is read back as a signed 32-bit value. -/
def jsAnd (a b : Nat) : Int := toInt32 ((a % 4294967296) &&& (b % 4294967296))

/-- Big-endian byte decomposition of a 32-bit value, as DataView.setUint32
stores it when littleEndian is unset. -/
def bigEndian4 (x : Nat) : List Nat :=
  [x / 16777216 % 256, x / 65536 % 256, x / 256 % 256, x % 256]

/-- DataView.setUint32: convert the value with ToUint32 and store big-endian. -/
def setUint32BE (v : Int) : List Nat := bigEndian4 (toUint32 v)

/-- E2EECrypto.generateIV as a function of the current ivCounter: a zeroed
12-byte buffer, bytes 0 to 3 written by view.setUint32(0, ivCounter >> 32),
bytes 4 to 7 written by view.setUint32(4, ivCounter & 0xFFFFFFFF), and bytes
8 to 11 left zero. -/
def generateIV (ivCounter : Nat) : List Nat :=
  setUint32BE (jsShr ivCounter 32) ++ setUint32BE (jsAnd ivCounter 4294967295) ++ [0, 0, 0, 0]

theorem toUint32_toInt32 (n : Nat) : toUint32 (toInt32 n) = n % 4294967296 := by
  unfold toInt32 toUint32
  split <;> omega

theorem jsShr_32 (n : Nat) : jsShr n 32 = toInt32 n := by
  unfold jsShr
  norm_num [Int.fdiv_one]

theorem toInt32_mod (n : Nat) : toInt32 (n % 4294967296) = toInt32 n := by
  unfold toInt32
  have h : n % 4294967296 % 4294967296 = n % 4294967296 := Nat.mod_mod_of_dvd n dvd_rfl
  rw [h]

theorem jsAnd_mask (n : Nat) : jsAnd n 4294967295 = toInt32 n := by
  unfold jsAnd
  have h1 : (4294967295 : Nat) % 4294967296 = 4294967295 := by norm_num
  have h2 : (4294967295 : Nat) = 2 ^ 32 - 1 := by norm_num
  rw [h1, h2, Nat.and_pow_two_sub_one_eq_mod]
  have h3 : n % 4294967296 % 2 ^ 32 = n % 4294967296 := by omega
  rw [h3, toInt32_mod]

/-- The two 32-bit stores both land on the low 32 bits of the counter: the
shift count 32 is masked to 0, so the high half written at offset 0 is the
same value as the masked low half written at offset 4. -/
theorem generateIV_eq (n : Nat) :
    generateIV n =
      bigEndian4 (n % 4294967296) ++ bigEndian4 (n % 4294967296) ++ [0, 0, 0, 0] := by
  unfold generateIV setUint32BE
  rw [jsShr_32, jsAnd_mask, toUint32_toInt32]

theorem generateIV_length (n : Nat) : (generateIV n).length = 12 := by
  rw [generateIV_eq]
  rfl

theorem bigEndian4_inj (x y : Nat) (hx : x < 4294967296) (hy : y < 4294967296)
    (h : bigEndian4 x = bigEndian4 y) : x = y := by
  unfold bigEndian4 at h
  simp only [List.cons.injEq, and_true] at h
  omega

/-- An authenticated-encryption scheme, the interface the code reaches through
crypto.subtle under the name AES-GCM: enc takes key, IV and plaintext to the
ciphertext (authentication tag included); dec authenticates and either
recovers the plaintext or fails.  The scheme is external library code, so the
engine is parametrised over it. -/
structure AEAD where
  enc : Key → List Nat → Frame → Frame
  dec : Key → List Nat → Frame → Option Frame

/-- The mutable fields of class E2EECrypto: cryptoKey (null before a key is
derived) and ivCounter.  The JS field encryptionKey is assigned null in the
constructor and never read, and is omitted. -/
structure E2EECrypto where
  cryptoKey : Option Key
  ivCounter : Nat
deriving DecidableEq, Repr

/-- The E2EECrypto constructor: no key, counter 0. -/
def E2EECrypto.new : E2EECrypto := { cryptoKey := none, ivCounter := 0 }

/-- The parameter bundle E2EECrypto.deriveKeyFromPIN hands to PBKDF2 key
derivation: the PIN as password, the hard-coded salt, 100000 iterations,
SHA-256, deriving an AES-GCM key of length 256.  String fields stand for
their TextEncoder (UTF-8) encodings, which determine them uniquely. -/
structure PBKDF2Request where
  password : String
  salt : String
  iterations : Nat
  hash : String
  keyAlgo : String
  keyLength : Nat
deriving DecidableEq, Repr

/-- The exact derivation request E2EECrypto.deriveKeyFromPIN builds for a PIN. -/
def deriveRequest (pin : String) : PBKDF2Request :=
  { password := pin
    salt := "SecureVideoCall2025"
    iterations := 100000
    hash := "SHA-256"
    keyAlgo := "AES-GCM"
    keyLength := 256 }

/-- E2EECrypto.deriveKeyFromPIN, parametrised over the external PBKDF2
implementation kdf: builds the fixed request from the PIN, stores the derived
key in this.cryptoKey and returns it.  The counter is not touched. -/
def deriveKeyFromPIN (kdf : PBKDF2Request → Key) (e : E2EECrypto) (pin : String) :
    Key × E2EECrypto :=
  let k := kdf (deriveRequest pin)
  (k, { e with cryptoKey := some k })

/-- E2EECrypto.encryptFrame: with no key, return the input unchanged (the
counter is untouched); otherwise generate the IV from the counter, increment
the counter, encrypt, and return the IV prepended to the ciphertext. -/
def encryptFrame (aead : AEAD) (e : E2EECrypto) (data : Frame) : Frame × E2EECrypto :=
  match e.cryptoKey with
  | none => (data, e)
  | some k =>
    let iv := generateIV e.ivCounter
    (iv ++ aead.enc k iv data, { e with ivCounter := e.ivCounter + 1 })

/-- E2EECrypto.decryptFrame: with no key or an input of fewer than 12 bytes,
return the input unchanged; otherwise split the input into IV (first 12
bytes) and ciphertext and attempt authenticated decryption, returning an
empty byte sequence when it fails (the catch branch).  The counter is never
touched, so the function is pure in the engine state. -/
def decryptFrame (aead : AEAD) (e : E2EECrypto) (data : Frame) : Frame :=
  match e.cryptoKey with
  | none => data
  | some k =>
    if data.length < 12 then data
    else
      match aead.dec k (data.take 12) (data.drop 12) with
      | some p => p
      | none => []

/-- A sequence of encryptFrame calls on one engine instance: the outputs in
call order together with the final engine state. -/
def encryptCalls (aead : AEAD) : E2EECrypto → List Frame → List Frame × E2EECrypto
  | e, [] => ([], e)
  | e, d :: ds =>
    let r := encryptFrame aead e d
    let rest := encryptCalls aead r.2 ds
    (r.1 :: rest.1, rest.2)

/-- A fixed toy authenticated-encryption scheme used only to instantiate
witnesses: it prepends a marker byte that decryption checks and strips, so
the roundtrip hypothesis holds for it definitionally. -/
def aead0 : AEAD where
  enc := fun _ _ p => 0 :: p
  dec := fun _ _ c =>
    match c with
    | 0 :: p => some p
    | _ => none

/-- A fixed toy key-derivation function used only to instantiate witnesses. -/
def kdf0 (r : PBKDF2Request) : Key := [r.iterations % 251, r.password.length % 256]

theorem encryptCalls_state (aead : AEAD) (k : Key) (ds : List Frame) :
    ∀ c : Nat, (encryptCalls aead ⟨some k, c⟩ ds).2 = ⟨some k, c + ds.length⟩ := by
  induction ds with
  | nil => intro c; simp [encryptCalls]
  | cons d ds ih =>
    intro c
    simp only [encryptCalls, encryptFrame]
    rw [ih (c + 1)]
    congr 1
    simp only [List.length_cons]
    omega

theorem encryptCalls_getD_take (aead : AEAD) (k : Key) (ds : List Frame) :
    ∀ (c i : Nat), i < ds.length →
      ((encryptCalls aead ⟨some k, c⟩ ds).1.getD i []).take 12 = generateIV (c + i) := by
  induction ds with
  | nil => intro c i h; simp at h
  | cons d ds ih =>
    intro c i h
    cases i with
    | zero =>
      simp only [encryptCalls, encryptFrame, List.getD_cons_zero, Nat.add_zero]
      rw [show (12 : Nat) = (generateIV c).length from (generateIV_length c).symm,
        List.take_left]
    | succ i' =>
      simp only [encryptCalls, encryptFrame, List.getD_cons_succ]
      have hr := ih (c + 1) i' (by simpa using h)
      rw [hr]
      congr 1
      omega

/-- Modelled from the spec's words, for the IV-layout comparison only: the
64-bit counter written as two big-endian 32-bit halves, high half (the
floored quotient by 2^32) first, low half (the remainder) second. -/
def specIVTwoHalves (n : Nat) : List Nat :=
  bigEndian4 (n / 4294967296) ++ bigEndian4 (n % 4294967296) ++ [0, 0, 0, 0]

/-- Claim C4 counterexample: at counter value 1 the IV produced by generateIV
differs from the spec's two-big-endian-halves layout — byte 3 of the code's
IV is 1, while floor(1 / 2^32) = 0 written big-endian would leave it 0. -/
theorem generateIV_ne_specIV_at_one : generateIV 1 ≠ specIVTwoHalves 1 := by decide

/-- Claim C4 (amended): for every counter value n, the 12-byte IV produced by
generateIV holds n mod 2^32 big-endian in bytes 0 to 3 (JavaScript masks the
shift count, so ivCounter >> 32 shifts by zero and yields ToInt32 of the
counter, not its high half) and again n mod 2^32 big-endian in bytes 4 to 7,
with bytes 8 to 11 zero. -/
theorem generateIV_low_half_twice (n : Nat) :
    generateIV n =
      bigEndian4 (n % 4294967296) ++ bigEndian4 (n % 4294967296) ++ [0, 0, 0, 0] :=
  generateIV_eq n

/-- Claim C5 counterexample: the IV is a function of the counter alone and
collapses modulo 2^32, so the encryptFrame call made at counter state 0 and
the one made at counter state 2^32 (the 2^32-th call of the instance, by
encryptCalls_state) emit the same 12-byte IV even though they are distinct
calls of one engine instance. -/
theorem nonce_repeat_at_2_32 :
    ((encryptFrame aead0 ⟨some [7], 0⟩ [5]).1).take 12 =
      ((encryptFrame aead0 ⟨some [7], 4294967296⟩ [5]).1).take 12 ∧
    (0 : Nat) ≠ 4294967296 ∧
    (encryptCalls aead0 ⟨some [7], 0⟩ [[5]]).2.ivCounter = 1 := by decide

/-- Claim C5 (amended): within one engine instance armed with a key, any two
distinct encryptFrame calls among the first 2^32 calls produce distinct
12-byte IV prefixes; the counter-derived nonce repeats only after 2^32 calls,
when the counter wraps modulo 2^32 inside generateIV. -/
theorem nonce_unique_below_2_32 (aead : AEAD) (k : Key) (ds : List Frame)
    (i j : Nat) (hi : i < ds.length) (hj : j < ds.length) (hij : i ≠ j)
    (hi32 : i < 4294967296) (hj32 : j < 4294967296) :
    ((encryptCalls aead ⟨some k, 0⟩ ds).1.getD i []).take 12 ≠
      ((encryptCalls aead ⟨some k, 0⟩ ds).1.getD j []).take 12 := by
  rw [encryptCalls_getD_take aead k ds 0 i hi, encryptCalls_getD_take aead k ds 0 j hj]
  intro h
  rw [Nat.zero_add, Nat.zero_add, generateIV_eq, generateIV_eq] at h
  have hmi : i % 4294967296 = i := Nat.mod_eq_of_lt hi32
  have hmj : j % 4294967296 = j := Nat.mod_eq_of_lt hj32
  rw [hmi, hmj] at h
  exact hij (bigEndian4_inj i j hi32 hj32 (by
    have := congrArg (List.take 4) h
    simpa [bigEndian4] using this))

/-- Witness for the amended claim C5 at concrete inputs: the first and second
calls of one instance have distinct IV prefixes. -/
theorem nonce_unique_below_2_32_witness :
    (0 : Nat) < ([[1], [2]] : List Frame).length ∧
    (1 : Nat) < ([[1], [2]] : List Frame).length ∧
    (0 : Nat) ≠ 1 ∧ (0 : Nat) < 4294967296 ∧ (1 : Nat) < 4294967296 ∧
    ((encryptCalls aead0 ⟨some [7], 0⟩ [[1], [2]]).1.getD 0 []).take 12 ≠
      ((encryptCalls aead0 ⟨some [7], 0⟩ [[1], [2]]).1.getD 1 []).take 12 :=
  ⟨by decide, by decide, by decide, by decide, by decide,
    nonce_unique_below_2_32 aead0 [7] [[1], [2]] 0 1 (by decide) (by decide)
      (by decide) (by decide) (by decide)⟩

/-- Shared roundtrip argument: when the AEAD scheme recovers what it encrypts,
decryptFrame inverts encryptFrame under the same key, whatever the two
engines' counters are. -/
theorem roundtrip_of_dec_enc (aead : AEAD)
    (hround : ∀ k iv p, aead.dec k iv (aead.enc k iv p) = some p)
    (k : Key) (c1 c2 : Nat) (p : Frame) :
    decryptFrame aead ⟨some k, c2⟩ (encryptFrame aead ⟨some k, c1⟩ p).1 = p := by
  have hlen : (generateIV c1).length = 12 := generateIV_length c1
  simp only [encryptFrame, decryptFrame]
  rw [if_neg (by simp [List.length_append, hlen])]
  rw [show (12 : Nat) = (generateIV c1).length from hlen.symm]
  rw [List.take_left, List.drop_left, hround]

/-- Claim C3: for every frame payload p and every key k, decrypting the output
of encryptFrame under the same key recovers p exactly, given that the
underlying AEAD primitive (crypto.subtle AES-GCM) recovers what it encrypts. -/
theorem decrypt_encrypt_roundtrip (aead : AEAD)
    (hround : ∀ k iv p, aead.dec k iv (aead.enc k iv p) = some p)
    (k : Key) (c1 c2 : Nat) (p : Frame) :
    decryptFrame aead ⟨some k, c2⟩ (encryptFrame aead ⟨some k, c1⟩ p).1 = p :=
  roundtrip_of_dec_enc aead hround k c1 c2 p

/-- Witness for claim C3 at concrete inputs, with the toy AEAD scheme whose
roundtrip hypothesis holds definitionally. -/
theorem decrypt_encrypt_roundtrip_witness :
    decryptFrame aead0 ⟨some [7], 5⟩ (encryptFrame aead0 ⟨some [7], 3⟩ [1, 2, 3]).1
      = [1, 2, 3] :=
  decrypt_encrypt_roundtrip aead0 (fun _ _ _ => rfl) [7] 3 5 [1, 2, 3]

/-- Claim C6: for every input frame of at least 12 bytes on which the AEAD
primitive rejects (authentication failure, as bit-flips in the ciphertext
cause), decryptFrame returns the empty byte sequence — the catch branch is
the only failure path and it never yields a non-empty plaintext. -/
theorem decrypt_tamper_fail_closed (aead : AEAD) (k : Key) (c : Nat) (d : Frame)
    (hlen : 12 ≤ d.length)
    (hfail : aead.dec k (d.take 12) (d.drop 12) = none) :
    decryptFrame aead ⟨some k, c⟩ d = [] := by
  simp only [decryptFrame]
  rw [if_neg (by omega), hfail]

/-- Witness for claim C6 at a concrete tampered frame rejected by the toy AEAD. -/
theorem decrypt_tamper_fail_closed_witness :
    12 ≤ ([0, 0, 0, 0, 0, 0, 0, 0, 0, 0, 0, 0, 1] : List Nat).length ∧
    aead0.dec [7] (([0, 0, 0, 0, 0, 0, 0, 0, 0, 0, 0, 0, 1] : List Nat).take 12)
      (([0, 0, 0, 0, 0, 0, 0, 0, 0, 0, 0, 0, 1] : List Nat).drop 12) = none ∧
    decryptFrame aead0 ⟨some [7], 0⟩ [0, 0, 0, 0, 0, 0, 0, 0, 0, 0, 0, 0, 1] = [] :=
  ⟨by decide, by decide,
    decrypt_tamper_fail_closed aead0 [7] 0 [0, 0, 0, 0, 0, 0, 0, 0, 0, 0, 0, 0, 1]
      (by decide) (by decide)⟩

/-- Claim C8: with no key set, both encryptFrame and decryptFrame return their
input unchanged (and the counter is untouched); with a key set, decryptFrame
still returns the input unchanged whenever it is shorter than the 12-byte
nonce length. -/
theorem passthrough_without_key (aead : AEAD) (c : Nat) (d : Frame) (k : Key) :
    (encryptFrame aead ⟨none, c⟩ d).1 = d ∧
    (encryptFrame aead ⟨none, c⟩ d).2 = ⟨none, c⟩ ∧
    decryptFrame aead ⟨none, c⟩ d = d ∧
    (d.length < 12 → decryptFrame aead ⟨some k, c⟩ d = d) := by
  refine ⟨rfl, rfl, rfl, fun h => ?_⟩
  simp only [decryptFrame]
  rw [if_pos h]

/-- Witness for claim C8 at a concrete short frame. -/
theorem passthrough_without_key_witness :
    ([1, 2] : List Nat).length < 12 ∧
    (encryptFrame aead0 ⟨none, 0⟩ [1, 2]).1 = [1, 2] ∧
    decryptFrame aead0 ⟨some [7], 0⟩ [1, 2] = [1, 2] :=
  ⟨by decide, (passthrough_without_key aead0 0 [1, 2] [7]).1,
    (passthrough_without_key aead0 0 [1, 2] [7]).2.2.2 (by decide)⟩

/-- Claim C9: deriveKeyFromPIN is a pure function of the PIN alone — two
invocations on any two engine instances yield the identical key, derived by
one PBKDF2 request with the fixed hard-coded salt, exactly 100000 (hence at
least 100000) iterations, SHA-256 and a 256-bit AES-GCM key — and a frame
encrypted under one derivation decrypts correctly under the other, given the
AEAD roundtrip property of the external cipher. -/
theorem derive_key_pure_and_interchangeable (kdf : PBKDF2Request → Key) (aead : AEAD)
    (hround : ∀ k iv p, aead.dec k iv (aead.enc k iv p) = some p)
    (e1 e2 : E2EECrypto) (pin : String) (p : Frame) (c1 c2 : Nat) :
    (deriveKeyFromPIN kdf e1 pin).1 = (deriveKeyFromPIN kdf e2 pin).1 ∧
    (deriveRequest pin).salt = "SecureVideoCall2025" ∧
    (deriveRequest pin).iterations = 100000 ∧
    100000 ≤ (deriveRequest pin).iterations ∧
    (deriveRequest pin).hash = "SHA-256" ∧
    (deriveRequest pin).keyAlgo = "AES-GCM" ∧
    (deriveRequest pin).keyLength = 256 ∧
    decryptFrame aead ⟨some (deriveKeyFromPIN kdf e2 pin).1, c2⟩
      (encryptFrame aead ⟨some (deriveKeyFromPIN kdf e1 pin).1, c1⟩ p).1 = p := by
  refine ⟨rfl, rfl, rfl, le_refl _, rfl, rfl, rfl, ?_⟩
  exact roundtrip_of_dec_enc aead hround (kdf (deriveRequest pin)) c1 c2 p

/-- Witness for claim C9 at concrete inputs: two distinct engine instances
derive the same key from the same PIN, and the derivations interoperate. -/
theorem derive_key_pure_and_interchangeable_witness :
    (deriveKeyFromPIN kdf0 E2EECrypto.new ("1234567890")).1 =
      (deriveKeyFromPIN kdf0 ⟨some [9], 5⟩ ("1234567890")).1 ∧
    decryptFrame aead0 ⟨some (deriveKeyFromPIN kdf0 ⟨some [9], 5⟩ ("1234567890")).1, 1⟩
      (encryptFrame aead0
        ⟨some (deriveKeyFromPIN kdf0 E2EECrypto.new ("1234567890")).1, 0⟩ [3, 4]).1
      = [3, 4] :=
  ⟨(derive_key_pure_and_interchangeable kdf0 aead0 (fun _ _ _ => rfl) E2EECrypto.new
      ⟨some [9], 5⟩ ("1234567890") [3, 4] 0 1).1,
    (derive_key_pure_and_interchangeable kdf0 aead0 (fun _ _ _ => rfl) E2EECrypto.new
      ⟨some [9], 5⟩ ("1234567890") [3, 4] 0 1).2.2.2.2.2.2.2⟩

/-- Claim C10: two fresh engine instances armed with the same PIN (as after
handleLeave replaces the engine) hold the identical derived key and a counter
starting at 0, and the i-th encryptFrame call of each instance uses the
identical IV generateIV i — so the (key, nonce) pair of the i-th call repeats
across instances, and nonce uniqueness does not extend across instances
armed with the same PIN. -/
theorem fresh_instances_repeat_key_and_iv (kdf : PBKDF2Request → Key) (aead : AEAD)
    (pin : String) (ds1 ds2 : List Frame) (i : Nat)
    (h1 : i < ds1.length) (h2 : i < ds2.length) :
    (deriveKeyFromPIN kdf E2EECrypto.new pin).2 = ⟨some (kdf (deriveRequest pin)), 0⟩ ∧
    ((encryptCalls aead (deriveKeyFromPIN kdf E2EECrypto.new pin).2 ds1).1.getD i
      []).take 12 = generateIV i ∧
    ((encryptCalls aead (deriveKeyFromPIN kdf E2EECrypto.new pin).2 ds2).1.getD i
      []).take 12 = generateIV i := by
  refine ⟨rfl, ?_, ?_⟩
  · have h := encryptCalls_getD_take aead (kdf (deriveRequest pin)) ds1 0 i h1
    rw [Nat.zero_add] at h
    exact h
  · have h := encryptCalls_getD_take aead (kdf (deriveRequest pin)) ds2 0 i h2
    rw [Nat.zero_add] at h
    exact h

/-- Witness for claim C10 at concrete inputs: the second call of each of two
fresh same-PIN instances carries the same IV. -/
theorem fresh_instances_repeat_key_and_iv_witness :
    (1 : Nat) < ([[1], [2]] : List Frame).length ∧
    (1 : Nat) < ([[3], [4]] : List Frame).length ∧
    ((encryptCalls aead0 (deriveKeyFromPIN kdf0 E2EECrypto.new ("1234567890")).2
      [[1], [2]]).1.getD 1 []).take 12 = generateIV 1 ∧
    ((encryptCalls aead0 (deriveKeyFromPIN kdf0 E2EECrypto.new ("1234567890")).2
      [[3], [4]]).1.getD 1 []).take 12 = generateIV 1 :=
  ⟨by decide, by decide,
    (fresh_instances_repeat_key_and_iv kdf0 aead0 ("1234567890") [[1], [2]] [[3], [4]] 1
      (by decide) (by decide)).2.1,
    (fresh_instances_repeat_key_and_iv kdf0 aead0 ("1234567890") [[1], [2]] [[3], [4]] 1
      (by decide) (by decide)).2.2⟩

/-! The signaling server (src/unnamed/part_000).  Socket identifiers and room
identifiers are opaque; both are modelled as naturals.  JS Maps are modelled
as insertion-ordered association lists with the exact get/set/delete
behaviour, and JS Sets as insertion-ordered duplicate-free lists with the
exact add/delete/size behaviour.  Socket.IO room membership (socket.join,
socket.leave, socket.to(room).emit) is tracked separately from the registry's
user sets, since the two can diverge; a broadcast socket.to(room).emit(msg)
delivers msg to every member of the Socket.IO room except the sender. -/

/-- JS Map.get. -/
def mapGet {α : Type} : List (Nat × α) → Nat → Option α
  | [], _ => none
  | (k', v) :: t, k => if k' = k then some v else mapGet t k

/-- JS Map.set: replace in place when the key is present, else append. -/
def mapSet {α : Type} : List (Nat × α) → Nat → α → List (Nat × α)
  | [], k, v => [(k, v)]
  | (k', v') :: t, k, v => if k' = k then (k, v) :: t else (k', v') :: mapSet t k v

/-- JS Map.delete: remove the entry for the key when present. -/
def mapDelete {α : Type} : List (Nat × α) → Nat → List (Nat × α)
  | [], _ => []
  | (k', v') :: t, k => if k' = k then t else (k', v') :: mapDelete t k

/-- JS Set.add: append unless already present. -/
def setAdd (l : List Nat) (x : Nat) : List Nat := if x ∈ l then l else l ++ [x]

/-- JS Set.delete: remove the element. -/
def setDelete (l : List Nat) (x : Nat) : List Nat := l.filter (fun y => y ≠ x)

/-- One entry of the rooms map: the users Set and the stored occupancy field. -/
structure RoomData where
  users : List Nat
  occupancy : Nat
deriving DecidableEq, Repr

/-- The server state: the rooms Map, Socket.IO room membership, and each
socket's currentRoom attribute (absent entries stand for null). -/
structure ServerState where
  rooms : List (Nat × RoomData)
  sio : List (Nat × List Nat)
  currentRoom : List (Nat × Nat)
deriving DecidableEq, Repr

/-- The notifications the join/leave handlers emit. -/
inductive Msg where
  | roomFull : Msg
  | roomJoined (occupancy : Nat) : Msg
  | userJoined (userId occupancy : Nat) : Msg
  | userLeft (userId occupancy : Nat) : Msg
deriving DecidableEq, Repr

/-- The empty initial state: const rooms = new Map(). -/
def initState : ServerState := ⟨[], [], []⟩

/-- The Socket.IO membership list of a room. -/
def sioMembers (s : ServerState) (room : Nat) : List Nat := (mapGet s.sio room).getD []

/-- Recipients of socket.to(room).emit: every member of the Socket.IO room
except the sending socket. -/
def broadcast (members : List Nat) (sender : Nat) (m : Msg) : List (Nat × Msg) :=
  (members.filter (fun y => y ≠ sender)).map (fun t => (t, m))

/-- The join-room handler: read the room entry (defaulting to an empty room),
reject with roomFull at occupancy 2 and return without touching any state;
otherwise join the Socket.IO room, add the user to the Set, refresh the
stored occupancy from the Set's size, store the entry, record currentRoom,
acknowledge the joiner with roomJoined and broadcast userJoined to the other
members. -/
def joinRoom (s : ServerState) (sock room : Nat) : ServerState × List (Nat × Msg) :=
  let roomData := (mapGet s.rooms room).getD ⟨[], 0⟩
  if 2 ≤ roomData.occupancy then
    (s, [(sock, Msg.roomFull)])
  else
    let sio' := mapSet s.sio room (setAdd (sioMembers s room) sock)
    let users' := setAdd roomData.users sock
    let d' : RoomData := ⟨users', users'.length⟩
    let s' : ServerState :=
      ⟨mapSet s.rooms room d', sio', mapSet s.currentRoom sock room⟩
    (s', (sock, Msg.roomJoined d'.occupancy) ::
      broadcast ((mapGet sio' room).getD []) sock (Msg.userJoined sock d'.occupancy))

/-- The handleUserLeave helper: when the room entry exists, delete the socket
from the Set and refresh the occupancy; at zero delete the room silently,
otherwise store the entry back and broadcast userLeft to the other Socket.IO
members (the broadcast precedes socket.leave, and excludes the sender).  In
every case the socket then leaves the Socket.IO room and currentRoom is
cleared.  Nothing checks that the leaving socket was a member. -/
def handleUserLeave (s : ServerState) (sock room : Nat) : ServerState × List (Nat × Msg) :=
  let step1 :=
    match mapGet s.rooms room with
    | some d =>
      let users' := setDelete d.users sock
      let occ' := users'.length
      if occ' = 0 then (mapDelete s.rooms room, ([] : List (Nat × Msg)))
      else
        (mapSet s.rooms room ⟨users', occ'⟩,
          broadcast (sioMembers s room) sock (Msg.userLeft sock occ'))
    | none => (s.rooms, [])
  let sio' := mapSet s.sio room (setDelete (sioMembers s room) sock)
  (⟨step1.1, sio', mapDelete s.currentRoom sock⟩, step1.2)

/-- The disconnect handler: Socket.IO first removes the socket from every
room, then the handler runs handleUserLeave on the socket's currentRoom when
one is recorded. -/
def disconnect (s : ServerState) (sock : Nat) : ServerState × List (Nat × Msg) :=
  let s0 : ServerState :=
    ⟨s.rooms, s.sio.map (fun p => (p.1, setDelete p.2 sock)), s.currentRoom⟩
  match mapGet s0.currentRoom sock with
  | some r => handleUserLeave s0 sock r
  | none => (s0, [])

/-- The operations a sequence of clients can drive the registry through. -/
inductive Op where
  | join (sock room : Nat) : Op
  | leave (sock room : Nat) : Op
  | disc (sock : Nat) : Op
deriving DecidableEq, Repr

/-- One event dispatch. -/
def stepOp (s : ServerState) : Op → ServerState × List (Nat × Msg)
  | Op.join sock room => joinRoom s sock room
  | Op.leave sock room => handleUserLeave s sock room
  | Op.disc sock => disconnect s sock

/-- The state after a sequence of operations from the empty initial state. -/
def exec (ops : List Op) : ServerState :=
  ops.foldl (fun s op => (stepOp s op).1) initState

/-- The occupancy the join handler reads: the stored occupancy field of the
room entry, 0 when the room does not exist. -/
def occupancy (s : ServerState) (room : Nat) : Nat :=
  match mapGet s.rooms room with
  | some d => d.occupancy
  | none => 0

/-- The users recorded for a room (empty when the room does not exist). -/
def roomUsers (s : ServerState) (room : Nat) : List Nat :=
  match mapGet s.rooms room with
  | some d => d.users
  | none => []

/-- The registry invariant: every stored room entry's occupancy field equals
its user Set's size and is at most 2. -/
abbrev Inv (s : ServerState) : Prop :=
  ∀ p ∈ s.rooms, p.2.occupancy = p.2.users.length ∧ p.2.occupancy ≤ 2

theorem mem_mapSet {α : Type} {p : Nat × α} :
    ∀ {m : List (Nat × α)} {k : Nat} {v : α}, p ∈ mapSet m k v → p = (k, v) ∨ p ∈ m := by
  intro m
  induction m with
  | nil =>
    intro k v h
    simp [mapSet] at h
    exact Or.inl h
  | cons q t ih =>
    obtain ⟨k', v'⟩ := q
    intro k v h
    unfold mapSet at h
    split at h
    · rcases List.mem_cons.1 h with h1 | h1
      · exact Or.inl h1
      · exact Or.inr (List.mem_cons_of_mem _ h1)
    · rcases List.mem_cons.1 h with h1 | h1
      · exact Or.inr (h1 ▸ List.mem_cons_self _ _)
      · rcases ih h1 with h2 | h2
        · exact Or.inl h2
        · exact Or.inr (List.mem_cons_of_mem _ h2)

theorem mem_mapDelete {α : Type} {p : Nat × α} :
    ∀ {m : List (Nat × α)} {k : Nat}, p ∈ mapDelete m k → p ∈ m := by
  intro m
  induction m with
  | nil =>
    intro k h
    simp [mapDelete] at h
  | cons q t ih =>
    obtain ⟨k', v'⟩ := q
    intro k h
    unfold mapDelete at h
    split at h
    · exact List.mem_cons_of_mem _ h
    · rcases List.mem_cons.1 h with h1 | h1
      · exact h1 ▸ List.mem_cons_self _ _
      · exact List.mem_cons_of_mem _ (ih h1)

theorem mapGet_mem {α : Type} : ∀ {m : List (Nat × α)} {k : Nat} {v : α},
    mapGet m k = some v → (k, v) ∈ m := by
  intro m
  induction m with
  | nil =>
    intro k v h
    simp [mapGet] at h
  | cons q t ih =>
    obtain ⟨k', v'⟩ := q
    intro k v h
    unfold mapGet at h
    split at h
    next heq =>
      rw [Option.some.injEq] at h
      exact List.mem_cons.2 (Or.inl (by rw [← heq, ← h]))
    next heq =>
      exact List.mem_cons_of_mem _ (ih h)

theorem setAdd_length_le (l : List Nat) (x : Nat) :
    (setAdd l x).length ≤ l.length + 1 := by
  unfold setAdd
  split
  · omega
  · simp

theorem setDelete_length_le (l : List Nat) (x : Nat) :
    (setDelete l x).length ≤ l.length :=
  List.length_filter_le _ l

theorem inv_joinRoom {s : ServerState} (hs : Inv s) (sock room : Nat) :
    Inv (joinRoom s sock room).1 := by
  simp only [joinRoom]
  split
  · exact hs
  next hocc =>
    intro p hp
    simp only at hp
    rcases mem_mapSet hp with h1 | h1
    · subst h1
      refine ⟨rfl, ?_⟩
      have hb : ((mapGet s.rooms room).getD ⟨[], 0⟩).users.length ≤ 1 := by
        cases hm : mapGet s.rooms room with
        | none => simp [hm]
        | some d =>
          have hd := hs (room, d) (mapGet_mem hm)
          simp only at hd
          rw [hm] at hocc
          simp only [Option.getD_some] at hocc
          simp only [hm, Option.getD_some]
          omega
      calc (setAdd ((mapGet s.rooms room).getD ⟨[], 0⟩).users sock).length
          ≤ ((mapGet s.rooms room).getD ⟨[], 0⟩).users.length + 1 :=
            setAdd_length_le _ _
        _ ≤ 2 := by omega
    · exact hs p h1

theorem inv_handleUserLeave {s : ServerState} (hs : Inv s) (sock room : Nat) :
    Inv (handleUserLeave s sock room).1 := by
  simp only [handleUserLeave]
  intro p hp
  simp only at hp
  split at hp
  next d hm =>
    have hd := hs (room, d) (mapGet_mem hm)
    split at hp
    · exact hs p (mem_mapDelete hp)
    · rcases mem_mapSet hp with h1 | h1
      · subst h1
        refine ⟨rfl, ?_⟩
        simp only at hd ⊢
        have := setDelete_length_le d.users sock
        omega
      · exact hs p h1
  next hm =>
    exact hs p hp

theorem inv_disconnect {s : ServerState} (hs : Inv s) (sock : Nat) :
    Inv (disconnect s sock).1 := by
  simp only [disconnect]
  have hs0 : Inv (⟨s.rooms, s.sio.map (fun p => (p.1, setDelete p.2 sock)),
      s.currentRoom⟩ : ServerState) := hs
  split
  · exact inv_handleUserLeave hs0 sock _
  · exact hs0

theorem inv_stepOp {s : ServerState} (hs : Inv s) (op : Op) : Inv (stepOp s op).1 := by
  cases op with
  | join sock room => exact inv_joinRoom hs sock room
  | leave sock room => exact inv_handleUserLeave hs sock room
  | disc sock => exact inv_disconnect hs sock

theorem inv_exec (ops : List Op) : Inv (exec ops) := by
  suffices h : ∀ (s : ServerState), Inv s →
      Inv (ops.foldl (fun s op => (stepOp s op).1) s) by
    exact h initState (by intro p hp; simp [initState] at hp)
  induction ops with
  | nil => intro s hs; exact hs
  | cons op ops ih => intro s hs; exact ih _ (inv_stepOp hs op)

theorem occupancy_le_two {s : ServerState} (hs : Inv s) (room : Nat) :
    occupancy s room ≤ 2 := by
  unfold occupancy
  cases hm : mapGet s.rooms room with
  | none => simp
  | some d => simpa using (hs (room, d) (mapGet_mem hm)).2

theorem joinRoom_full {s : ServerState} {room : Nat} (h : occupancy s room = 2)
    (sock : Nat) : joinRoom s sock room = (s, [(sock, Msg.roomFull)]) := by
  unfold occupancy at h
  have hcond : 2 ≤ ((mapGet s.rooms room).getD ⟨[], 0⟩).occupancy := by
    cases hm : mapGet s.rooms room with
    | none => rw [hm] at h; simp at h
    | some d =>
      rw [hm] at h
      simp only [Option.getD_some]
      simp only at h
      omega
  simp only [joinRoom]
  rw [if_pos hcond]

/-- Claim C2: after every finite sequence of join-room, leave-room and
disconnect operations (every step of a sequence being the execution of one of
its prefixes), the occupancy of every room is at most 2 — as is the size of
every room's recorded user set — and a join attempt on a room whose occupancy
is 2 returns the state unchanged with a single roomFull notification to the
joining socket. -/
theorem registry_occupancy_invariant (ops : List Op) :
    (∀ room, occupancy (exec ops) room ≤ 2 ∧ (roomUsers (exec ops) room).length ≤ 2) ∧
    (∀ sock room, occupancy (exec ops) room = 2 →
      joinRoom (exec ops) sock room = (exec ops, [(sock, Msg.roomFull)])) := by
  have hs := inv_exec ops
  refine ⟨fun room => ⟨occupancy_le_two hs room, ?_⟩, fun sock room h => joinRoom_full h sock⟩
  unfold roomUsers
  cases hm : mapGet (exec ops).rooms room with
  | none => simp
  | some d =>
    have hd := hs (room, d) (mapGet_mem hm)
    simp only at hd ⊢
    omega

/-- Witness for claim C2 at a concrete sequence filling room 7. -/
theorem registry_occupancy_invariant_witness :
    occupancy (exec [Op.join 1 7, Op.join 2 7]) 7 ≤ 2 ∧
    occupancy (exec [Op.join 1 7, Op.join 2 7]) 7 = 2 ∧
    joinRoom (exec [Op.join 1 7, Op.join 2 7]) 3 7 =
      (exec [Op.join 1 7, Op.join 2 7], [(3, Msg.roomFull)]) :=
  ⟨((registry_occupancy_invariant [Op.join 1 7, Op.join 2 7]).1 7).1, by decide,
    (registry_occupancy_invariant [Op.join 1 7, Op.join 2 7]).2 3 7 (by decide)⟩

theorem mapGet_mapSet_self {α : Type} :
    ∀ (m : List (Nat × α)) (k : Nat) (v : α), mapGet (mapSet m k v) k = some v := by
  intro m
  induction m with
  | nil => intro k v; simp [mapSet, mapGet]
  | cons q t ih =>
    obtain ⟨k', v'⟩ := q
    intro k v
    unfold mapSet
    split
    · simp [mapGet]
    next hne => unfold mapGet; rw [if_neg hne]; exact ih k v

theorem getD_users (s : ServerState) (room : Nat) :
    ((mapGet s.rooms room).getD ⟨[], 0⟩).users = roomUsers s room := by
  unfold roomUsers
  cases mapGet s.rooms room <;> simp

theorem getD_occupancy (s : ServerState) (room : Nat) :
    ((mapGet s.rooms room).getD ⟨[], 0⟩).occupancy = occupancy s room := by
  unfold occupancy
  cases mapGet s.rooms room <;> simp

theorem occupancy_eq_users_length {s : ServerState} (hs : Inv s) (room : Nat) :
    occupancy s room = (roomUsers s room).length := by
  unfold occupancy roomUsers
  cases hm : mapGet s.rooms room with
  | none => simp
  | some d =>
    have hd := hs (room, d) (mapGet_mem hm)
    simp only at hd ⊢
    omega

/-- Claim C7 counterexample: in a room whose sole recorded occupant is socket
1 (occupancy 1, so the join is accepted), a second join-room from socket 1
itself is accepted and acknowledged with roomJoined occupancy 1 — the
previous occupancy, not previous occupancy + 1 — because Set.add is a no-op
on an identifier already recorded in the room. -/
theorem rejoin_reports_same_occupancy :
    occupancy (exec [Op.join 1 5]) 5 = 1 ∧
    (joinRoom (exec [Op.join 1 5]) 1 5).2 = [(1, Msg.roomJoined 1)] ∧
    roomUsers (joinRoom (exec [Op.join 1 5]) 1 5).1 5 = [1] ∧
    (1 : Nat) ≠ 1 + 1 := by decide

/-- Claim C7 (amended): a join accepted at occupancy below 2 with an occupant
identifier not already recorded appends the occupant to the room's user set,
and the roomJoined acknowledgement and every userJoined broadcast report
exactly the previous occupancy plus 1; for an identifier already recorded
the join is also accepted, but the user set is unchanged and the
notifications report the previous occupancy unchanged. -/
theorem join_accepted_occupancy_reports (s : ServerState) (sock room : Nat)
    (hs : Inv s) (hocc : occupancy s room < 2) :
    (sock ∉ roomUsers s room →
      roomUsers (joinRoom s sock room).1 room = roomUsers s room ++ [sock] ∧
      occupancy (joinRoom s sock room).1 room = occupancy s room + 1 ∧
      (joinRoom s sock room).2.head?
        = some (sock, Msg.roomJoined (occupancy s room + 1)) ∧
      (∀ e ∈ (joinRoom s sock room).2.tail,
        e.2 = Msg.userJoined sock (occupancy s room + 1))) ∧
    (sock ∈ roomUsers s room →
      roomUsers (joinRoom s sock room).1 room = roomUsers s room ∧
      occupancy (joinRoom s sock room).1 room = occupancy s room ∧
      (joinRoom s sock room).2.head?
        = some (sock, Msg.roomJoined (occupancy s room)) ∧
      (∀ e ∈ (joinRoom s sock room).2.tail,
        e.2 = Msg.userJoined sock (occupancy s room))) := by
  have hcond : ¬ 2 ≤ ((mapGet s.rooms room).getD ⟨[], 0⟩).occupancy := by
    rw [getD_occupancy]
    omega
  have hlen := occupancy_eq_users_length hs room
  constructor
  · intro hmem
    have hadd : setAdd ((mapGet s.rooms room).getD ⟨[], 0⟩).users sock
        = roomUsers s room ++ [sock] := by
      rw [getD_users]
      unfold setAdd
      rw [if_neg hmem]
    have hlen2 : (setAdd ((mapGet s.rooms room).getD ⟨[], 0⟩).users sock).length
        = occupancy s room + 1 := by
      rw [hadd, List.length_append, hlen]
      simp
    simp only [joinRoom]
    rw [if_neg hcond]
    refine ⟨?_, ?_, ?_, ?_⟩
    · unfold roomUsers
      simp only [mapGet_mapSet_self]
      rw [hadd]
      rfl
    · unfold occupancy
      simp only [mapGet_mapSet_self]
      exact hlen2
    · simp only [List.head?_cons, hlen2]
    · intro e he
      simp only [List.tail_cons, broadcast, List.mem_map] at he
      obtain ⟨t, -, ht⟩ := he
      rw [← ht, hlen2]
  · intro hmem
    have hadd : setAdd ((mapGet s.rooms room).getD ⟨[], 0⟩).users sock
        = roomUsers s room := by
      rw [getD_users]
      unfold setAdd
      rw [if_pos hmem]
    have hlen2 : (setAdd ((mapGet s.rooms room).getD ⟨[], 0⟩).users sock).length
        = occupancy s room := by
      rw [hadd, hlen]
    simp only [joinRoom]
    rw [if_neg hcond]
    refine ⟨?_, ?_, ?_, ?_⟩
    · unfold roomUsers
      simp only [mapGet_mapSet_self]
      rw [hadd]
      rfl
    · unfold occupancy
      simp only [mapGet_mapSet_self]
      exact hlen2
    · simp only [List.head?_cons, hlen2]
    · intro e he
      simp only [List.tail_cons, broadcast, List.mem_map] at he
      obtain ⟨t, -, ht⟩ := he
      rw [← ht, hlen2]

/-- Witness for the amended claim C7 at a concrete accepted join by a fresh
occupant. -/
theorem join_accepted_occupancy_reports_witness :
    occupancy (exec [Op.join 1 5]) 5 < 2 ∧
    (2 : Nat) ∉ roomUsers (exec [Op.join 1 5]) 5 ∧
    (roomUsers (joinRoom (exec [Op.join 1 5]) 2 5).1 5
        = roomUsers (exec [Op.join 1 5]) 5 ++ [2] ∧
      occupancy (joinRoom (exec [Op.join 1 5]) 2 5).1 5
        = occupancy (exec [Op.join 1 5]) 5 + 1 ∧
      (joinRoom (exec [Op.join 1 5]) 2 5).2.head?
        = some (2, Msg.roomJoined (occupancy (exec [Op.join 1 5]) 5 + 1)) ∧
      ∀ e ∈ (joinRoom (exec [Op.join 1 5]) 2 5).2.tail,
        e.2 = Msg.userJoined 2 (occupancy (exec [Op.join 1 5]) 5 + 1)) :=
  ⟨by decide, by decide,
    (join_accepted_occupancy_reports (exec [Op.join 1 5]) 2 5 (by decide)
      (by decide)).1 (by decide)⟩

/-- Claim C1, evaluated at its failing input: room 10 holds sockets 1 and 2;
socket 3's join is rejected with a single roomFull to socket 3 and no state
change, but the leave-room that the rejected client's roomFull handler then
emits (via handleLeave, for the room it never joined) makes the server
broadcast userLeft with occupancy 2 to both genuine occupants — so
notifications from the rejection's aftermath do reach other occupants, even
though no membership changes anywhere. -/
theorem rejected_join_then_leave_notifies_occupants :
    joinRoom (exec [Op.join 1 10, Op.join 2 10]) 3 10 =
      (exec [Op.join 1 10, Op.join 2 10], [(3, Msg.roomFull)]) ∧
    (handleUserLeave (exec [Op.join 1 10, Op.join 2 10]) 3 10).2 =
      [(1, Msg.userLeft 3 2), (2, Msg.userLeft 3 2)] ∧
    (handleUserLeave (exec [Op.join 1 10, Op.join 2 10]) 3 10).1.rooms =
      (exec [Op.join 1 10, Op.join 2 10]).rooms ∧
    roomUsers (exec [Op.join 1 10, Op.join 2 10]) 10 = [1, 2] := by decide

end SecureCall
